import Mathlib

/-!
Vector addition on an alpaka grid.

A shallow embedding of `vectorAdditionAlpaka/src/vector_addition.cpp`:
the kernel `vector_addition_kernel::operator()`, the work division built in
`main`, and `main` itself as a function from the command line to a trace of
events and a return value.

Conventions of the embedding.

* `int` values are `Int`; an `int` operation whose mathematical result leaves
  `[INT_MIN, INT_MAX]`, or a division by zero, is undefined behaviour in C++ and
  is a `Fault` here.
* `std::size_t` values (`Size`, and the kernel's `TIdx`, which is deduced from
  `numElements`) are `Nat` below `SIZE_MOD = 2 ^ 64`; unsigned arithmetic wraps.
* Buffers are lists of `Int`; an access outside the buffer is a `Fault`.
* The alpaka library is not part of the repository. Its grid is modelled as the
  serial back end runs it: blocks in increasing order, threads of a block in
  increasing order, the grid thread index being
  `blockIdx * threadsPerBlock + threadIdx`. Whether the calls that `main` makes
  to the library succeed (device and stream set-up, allocation, copy, execution of
  the kernel task for a given work division) is a parameter of `main`, a
  `Backend`; a call that fails throws, `main` catches nothing, so the run ends
  there.
-/

namespace VectorAddition

/-! ## Machine model -/

/-- The ways a run can end other than by returning: three kinds of undefined
behaviour, and an exception thrown by the library. -/
inductive Fault where
  | divByZero
  | signedOverflow
  | outOfBounds
  | libraryError
  deriving DecidableEq, Repr

/-- Largest value of the C++ type `int` (32 bits). -/
def INT_MAX : Int := 2147483647

/-- Smallest value of the C++ type `int` (32 bits). -/
def INT_MIN : Int := -2147483648

/-- Number of values of `std::size_t` (64 bits). -/
def SIZE_MOD : Nat := 18446744073709551616

/-- Whether a mathematical integer is a value of `int`. -/
def inIntRange (x : Int) : Prop := INT_MIN ≤ x ∧ x ≤ INT_MAX

instance (x : Int) : Decidable (inIntRange x) := by
  unfold inIntRange; exact inferInstance

/-- Result of an `int` computation: the value if representable, a fault otherwise. -/
def checkInt (x : Int) : Except Fault Int :=
  if inIntRange x then .ok x else .error .signedOverflow

/-- The C++ expression `x + y` on `int`. -/
def intAdd (x y : Int) : Except Fault Int := checkInt (x + y)

/-- The C++ expression `x / y` on `int`: truncating division. -/
def intDiv (x y : Int) : Except Fault Int :=
  if y = 0 then .error .divByZero else checkInt (Int.tdiv x y)

/-- The C++ expression `x % y` on `int`: remainder of the truncating division,
undefined where the quotient is. -/
def intMod (x y : Int) : Except Fault Int :=
  if y = 0 then .error .divByZero
  else if inIntRange (Int.tdiv x y) then .ok (Int.tmod x y)
  else .error .signedOverflow

/-- Conversion of an `int` to `std::size_t` (`static_cast<Size>` and the implicit
conversions in `main`): reduction modulo `2 ^ 64`. -/
def toSize (x : Int) : Nat := (x % (SIZE_MOD : Int)).toNat

/-- Read `buf[i]`. -/
def readAt (buf : List Int) (i : Nat) : Except Fault Int :=
  match buf[i]? with
  | some v => .ok v
  | none => .error .outOfBounds

/-- Write `buf[i] = v`. -/
def writeAt (buf : List Int) (i : Nat) (v : Int) : Except Fault (List Int) :=
  if i < buf.length then .ok (buf.set i v) else .error .outOfBounds

/-! ## The work division of `main` (lines 87-97) -/

/-- An alpaka `WorkDivMembers<DimInt<1u>, Size>`. -/
structure WorkDiv where
  blocksPerGrid : Nat
  threadsPerBlock : Nat
  elementsPerThread : Nat
  deriving DecidableEq, Repr

/-- The block count of `main`, line 88:
`vec_size_h / n_threads + (vec_size_h % n_threads != 0)`. -/
def n_blocks (vec_size_h n_threads : Int) : Except Fault Int := do
  let q ← intDiv vec_size_h n_threads
  let r ← intMod vec_size_h n_threads
  intAdd q (if r ≠ 0 then 1 else 0)

/-- The work division of `main`, lines 88-97: `n_blocks` blocks of `n_threads`
threads with one element per thread. -/
def mainWorkDiv (vec_size_h n_threads : Int) : Except Fault WorkDiv := do
  let nb ← n_blocks vec_size_h n_threads
  pure { blocksPerGrid := toSize nb
         threadsPerBlock := toSize n_threads
         elementsPerThread := 1 }

/-! ## The kernel (lines 21-50) -/

/-- Line 37: `gridThreadIdx * threadElemExtent` in `TIdx`. -/
def threadFirstElemIdx (gridThreadIdx threadElemExtent : Nat) : Nat :=
  (gridThreadIdx * threadElemExtent) % SIZE_MOD

/-- Line 41: `threadFirstElemIdx + threadElemExtent` in `TIdx`. -/
def threadLastElemIdx (first threadElemExtent : Nat) : Nat :=
  (first + threadElemExtent) % SIZE_MOD

/-- Line 42: `(vec_size > threadLastElemIdx) ? threadLastElemIdx : vec_size`. -/
def threadLastElemIdxClipped (vec_size last : Nat) : Nat :=
  if vec_size > last then last else vec_size

/-- The values taken by the loop variable `i` of one kernel invocation, in order
(lines 39-44): nothing when the first index is not below `vec_size`, else
`first, first + 1, ...` while `i < threadLastElemIdxClipped`. The increment
cannot wrap, since `i < threadLastElemIdxClipped < 2 ^ 64`. -/
def threadElems (gridThreadIdx threadElemExtent vec_size : Nat) : List Nat :=
  let first := threadFirstElemIdx gridThreadIdx threadElemExtent
  if first < vec_size then
    let last := threadLastElemIdx first threadElemExtent
    let clipped := threadLastElemIdxClipped vec_size last
    List.range' first (clipped - first)
  else []

/-- The loop body, line 46: `c[i] = c[i] + b[i]`. -/
def elemStep (b c : List Int) (i : Nat) : Except Fault (List Int) := do
  let ci ← readAt c i
  let bi ← readAt b i
  let s ← intAdd ci bi
  writeAt c i s

/-- One invocation of `vector_addition_kernel::operator()` by the grid thread
`gridThreadIdx` of a work division with `threadElemExtent` elements per thread.
The buffer `a` is a parameter of the kernel and is never accessed. -/
def vector_addition_kernel (gridThreadIdx threadElemExtent : Nat)
    (_a b c : List Int) (vec_size : Nat) : Except Fault (List Int) :=
  (threadElems gridThreadIdx threadElemExtent vec_size).foldlM (elemStep b) c

/-! ## The grid -/

/-- The grid thread index of thread `threadIdx` of block `blockIdx`
(`alpaka::idx::getIdx<Grid, Threads>`), in `Size`. -/
def getIdx (wd : WorkDiv) (blockIdx threadIdx : Nat) : Nat :=
  (blockIdx * wd.threadsPerBlock + threadIdx) % SIZE_MOD

/-- Grid thread indices of the threads of one block, in increasing order. -/
def blockThreads (wd : WorkDiv) (blockIdx : Nat) : List Nat :=
  (List.range wd.threadsPerBlock).map (getIdx wd blockIdx)

/-- Grid thread indices of all threads of the grid, in the order in which the
serial back end runs them. -/
def gridThreads (wd : WorkDiv) : List Nat :=
  (List.range wd.blocksPerGrid).flatMap (blockThreads wd)

/-- Run the kernel for the given grid threads, one after another. -/
def runThreads (wd : WorkDiv) (ts : List Nat) (a b c : List Int) (vec_size : Nat) :
    Except Fault (List Int) :=
  ts.foldlM (fun c t => vector_addition_kernel t wd.elementsPerThread a b c vec_size) c

/-- One execution of the kernel task over the whole grid. -/
def runGrid (wd : WorkDiv) (a b c : List Int) (vec_size : Nat) : Except Fault (List Int) :=
  runThreads wd (gridThreads wd) a b c vec_size

/-- The indices processed by the threads of block `blockIdx`: its chunk. -/
def blockElems (wd : WorkDiv) (vec_size blockIdx : Nat) : List Nat :=
  (blockThreads wd blockIdx).flatMap
    (fun t => threadElems t wd.elementsPerThread vec_size)

/-- The kernel task of `main`: the work division of lines 88-97 and one run of
the kernel over it with `numElements = static_cast<Size>(vec_size_h)`. -/
def launch (vec_size_h n_threads : Int) (a b c : List Int) : Except Fault (List Int) := do
  let wd ← mainWorkDiv vec_size_h n_threads
  runGrid wd a b c (toSize vec_size_h)

deriving instance DecidableEq for Except

/-! ## Auxiliary definitions

Closed forms used to state and prove the theorems; they have no counterpart in the
source. -/

/-- Number of blocks for natural `N` and `G`: quotient, plus one if there is a remainder. -/
def ceilDiv (N G : Nat) : Nat := N / G + (if N % G = 0 then 0 else 1)

/-- The buffer `c` after the one-element threads `ts` have run: every entry whose
index is one of the threads is increased by the entry of `b` at that index. -/
def bumpOn (ts : List Nat) (b c : List Int) : List Int :=
  (List.range c.length).map
    (fun i => if i ∈ ts then c.getD i 0 + b.getD i 0 else c.getD i 0)

/-- Every sum `c[i] + b[i]`, `i < n`, is a value of `int`. -/
def sumsFit (n : Nat) (b c : List Int) : Prop :=
  ∀ i, i < n → inIntRange (c.getD i 0 + b.getD i 0)

instance (n : Nat) (b c : List Int) : Decidable (sumsFit n b c) := by
  unfold sumsFit; exact inferInstance

/-- The effect of `c[i] = c[i] + b[i]` at every index of `c`: the element-wise
sums, or a fault when one of them is not a value of `int`. -/
def addInPlace (b c : List Int) : Except Fault (List Int) :=
  if sumsFit c.length b c then .ok (List.zipWith (· + ·) c b) else .error .signedOverflow

/-! ## `main` (lines 52-160) -/

/-- What `main` does that is visible from outside, in program order. -/
inductive Event where
  /-- A line written to `cout`. -/
  | stdout (line : String)
  /-- One of the two timing lines, whose number depends on the clock. -/
  | stdoutTiming (label : String)
  /-- A call `atoi(argv[k])`. -/
  | parseArg (k : Nat)
  /-- The devices and the stream are obtained, lines 83-85. -/
  | setup
  /-- A call of `alpaka::mem::buf::alloc` for that many elements. -/
  | alloc (numElements : Nat)
  /-- A call of `alpaka::mem::view::copy`. -/
  | copy
  /-- The kernel task is enqueued and, the stream being synchronous, executed. -/
  | enqueue
  deriving DecidableEq, Repr

/-- A run: the events so far, and either a fault or a value. -/
structure Run (α : Type) where
  trace : List Event
  result : Except Fault α

/-- A run that only returns a value. -/
def Run.pure {α : Type} (x : α) : Run α := ⟨[], .ok x⟩

/-- Sequencing: the second run happens only if the first did not fault. -/
def Run.bind {α β : Type} (x : Run α) (f : α → Run β) : Run β :=
  match x.result with
  | .error e => ⟨x.trace, .error e⟩
  | .ok v => ⟨x.trace ++ (f v).trace, (f v).result⟩

instance : Monad Run where
  pure := Run.pure
  bind := Run.bind

/-- A run that consists of one event. -/
def emit (e : Event) : Run Unit := ⟨[e], .ok ()⟩

/-- A computation that is not visible from outside. -/
def silent {α : Type} (x : Except Fault α) : Run α := ⟨[], x⟩

/-- Which calls of `main` to the alpaka library succeed. The library is not part
of the repository, so this is left to the caller of `main`. -/
structure Backend where
  /-- Whether `getDevByIdx` and the construction of the stream succeed. -/
  setupOk : Bool
  /-- Whether `alloc` succeeds for that many elements. -/
  allocOk : Nat → Bool
  /-- Whether `copy` succeeds for that many elements. -/
  copyOk : Nat → Bool
  /-- Whether the kernel task is accepted and executed for that work division. -/
  enqueueOk : WorkDiv → Bool

/-- Outcome of a library call: it returns, or it throws. -/
def libCall (ok : Bool) : Except Fault Unit :=
  if ok then .ok () else .error .libraryError

/-- C `isspace` in the default locale. -/
def isspace (ch : Char) : Bool :=
  ch.toNat = 32 || (9 ≤ ch.toNat && ch.toNat ≤ 13)

/-- Value of the leading decimal digits, after the digits read so far. -/
def digitsValue : List Char → Nat → Nat
  | [], acc => acc
  | ch :: rest, acc =>
    if 48 ≤ ch.toNat ∧ ch.toNat ≤ 57 then digitsValue rest (acc * 10 + (ch.toNat - 48)) else acc

/-- The C library function `atoi`: white space, an optional sign, decimal digits;
`0` when there is no digit; undefined when the value is not an `int`. -/
def atoi (s : String) : Except Fault Int :=
  match s.toList.dropWhile isspace with
  | '-' :: ds => checkInt (-(digitsValue ds 0 : Int))
  | '+' :: ds => checkInt (digitsValue ds 0 : Int)
  | ds => checkInt (digitsValue ds 0 : Int)

/-- Conversion of a `Size` to `int`, as in `getPtrNative(a_h)[i] = i`. -/
def toInt (n : Nat) : Int := ((n : Int) + 2147483648) % 4294967296 - 2147483648

/-- The usage message of line 55. -/
def usage : String :=
  "Need two arguments: size of vector, number of threads / block and device to use"

/-- One line of the result printout, line 153. -/
def resultLine (a b c : Int) : String :=
  toString a ++ " + " ++ toString b ++ " = " ++ toString c

/-- The program. `argv` is the argument vector, the program name included, so
`argc = argv.length`; `be` says which library calls succeed; `uninit i` is what
entry `i` of the freshly allocated buffer `c_acc` holds, which `main` never writes
before the kernel reads it. -/
def main (argv : List String) (be : Backend) (uninit : Nat → Int) : Run Int :=
  let argc := argv.length
  if argc ≠ 4 then do
    emit (.stdout usage)
    return -1
  else do
    emit (.parseArg (argc - 3))
    let vec_size_h ← silent (atoi (argv.getD (argc - 3) ""))
    emit (.parseArg (argc - 2))
    let n_threads ← silent (atoi (argv.getD (argc - 2) ""))
    emit (.parseArg (argc - 1))
    let _device_id ← silent (atoi (argv.getD (argc - 1) ""))
    emit (.stdout ("Adding vectors of size " ++ toString vec_size_h ++ " with "
      ++ toString n_threads ++ " threads"))
    emit .setup
    silent (libCall be.setupOk)
    let workdiv ← silent (mainWorkDiv vec_size_h n_threads)
    let numElements := toSize vec_size_h
    emit (.alloc numElements)
    silent (libCall (be.allocOk numElements))
    emit (.alloc numElements)
    silent (libCall (be.allocOk numElements))
    emit (.alloc numElements)
    silent (libCall (be.allocOk numElements))
    let a_h := (List.range numElements).map toInt
    let b_h := (List.range numElements).map toInt
    let _c_h : List Int := List.replicate numElements 0
    emit (.alloc numElements)
    silent (libCall (be.allocOk numElements))
    emit (.alloc numElements)
    silent (libCall (be.allocOk numElements))
    emit (.alloc numElements)
    silent (libCall (be.allocOk numElements))
    emit .copy
    silent (libCall (be.copyOk numElements))
    let a_acc := a_h
    emit .copy
    silent (libCall (be.copyOk numElements))
    let b_acc := b_h
    let c_acc := (List.range numElements).map uninit
    emit .enqueue
    silent (libCall (be.enqueueOk workdiv))
    let c_acc ← silent (runGrid workdiv a_acc b_acc c_acc numElements)
    emit .copy
    silent (libCall (be.copyOk numElements))
    let c_h := c_acc
    (List.range vec_size_h.toNat).forM (fun i => do
      let ai ← silent (readAt a_h i)
      let bi ← silent (readAt b_h i)
      let ci ← silent (readAt c_h i)
      emit (.stdout (resultLine ai bi ci)))
    emit (.stdoutTiming "Kernel duration: ")
    emit (.stdoutTiming "Time per kenel: ")
    return 0

/-! ## Arithmetic of the work division -/

theorem ceilDiv_mul_ge (N G : Nat) (hG : 0 < G) : N ≤ ceilDiv N G * G := by
  unfold ceilDiv
  have h1 := Nat.div_add_mod N G
  have h2 := Nat.mod_lt N hG
  rw [Nat.mul_comm] at h1
  rw [Nat.add_mul]
  generalize N / G * G = m at h1 ⊢
  generalize N % G = r at h1 h2 ⊢
  split <;> simp <;> omega

theorem ceilDiv_pred_mul_lt (N G : Nat) (hG : 0 < G) (hN : 0 < N) :
    (ceilDiv N G - 1) * G < N := by
  unfold ceilDiv
  have h1 := Nat.div_add_mod N G
  have h2 := Nat.mod_lt N hG
  rw [Nat.mul_comm] at h1
  by_cases h : N % G = 0
  · simp only [h, if_true, Nat.add_zero]
    rw [h] at h1
    have hq : 0 < N / G := by
      rcases Nat.eq_zero_or_pos (N / G) with h0 | h0
      · rw [h0] at h1; omega
      · exact h0
    rw [Nat.sub_mul, Nat.one_mul]
    have : G ≤ N / G * G := Nat.le_mul_of_pos_left G hq
    omega
  · simp only [h, if_false, Nat.add_sub_cancel]
    omega

theorem ceilDiv_le (N G : Nat) : ceilDiv N G ≤ N := by
  unfold ceilDiv
  rcases Nat.eq_zero_or_pos G with h0 | hG
  · subst h0; simp; split <;> omega
  · by_cases h : N % G = 0
    · simp only [h, if_true, Nat.add_zero]; exact Nat.div_le_self N G
    · simp only [h, if_false]
      rcases Nat.lt_or_ge 1 G with h1G | h1G
      · have hN : 0 < N := by
          rcases Nat.eq_zero_or_pos N with h0 | h0
          · subst h0; simp at h
          · exact h0
        have := Nat.div_lt_self hN h1G
        omega
      · have : G = 1 := by omega
        rw [this, Nat.mod_one] at h
        exact absurd rfl h

theorem ok_bind {α β : Type} (x : α) (f : α → Except Fault β) :
    (Except.ok x >>= f) = f x := rfl

theorem error_bind {α β : Type} (e : Fault) (f : α → Except Fault β) :
    ((Except.error e : Except Fault α) >>= f) = Except.error e := rfl

theorem inIntRange_ofNat (n : Nat) (N : Nat) (h : n ≤ N) (hN : (N : Int) ≤ INT_MAX) :
    inIntRange (n : Int) := by
  unfold inIntRange INT_MIN
  unfold INT_MAX at hN ⊢
  omega

theorem n_blocks_ofNat (N G : Nat) (hN : (N : Int) ≤ INT_MAX) (hG : 0 < G) :
    n_blocks (N : Int) (G : Int) = .ok ((ceilDiv N G : Nat) : Int) := by
  have hG0 : (G : Int) ≠ 0 := by omega
  have hq : Int.tdiv (N : Int) (G : Int) = ((N / G : Nat) : Int) := (Int.ofNat_tdiv N G).symm
  have hr : Int.tmod (N : Int) (G : Int) = ((N % G : Nat) : Int) := (Int.ofNat_tmod N G).symm
  have hqr : inIntRange ((N / G : Nat) : Int) :=
    inIntRange_ofNat _ N (Nat.div_le_self N G) hN
  have hcr : inIntRange ((ceilDiv N G : Nat) : Int) :=
    inIntRange_ofNat _ N (ceilDiv_le N G) hN
  have hsum : ((N / G : Nat) : Int) + (if ((N % G : Nat) : Int) ≠ 0 then 1 else 0)
      = ((ceilDiv N G : Nat) : Int) := by
    unfold ceilDiv
    by_cases h : N % G = 0
    · rw [h]; simp
    · have h' : ((N % G : Nat) : Int) ≠ 0 := by exact_mod_cast h
      rw [if_pos h', if_neg h]; push_cast; rfl
  have hdiv : intDiv (N : Int) (G : Int) = .ok ((N / G : Nat) : Int) := by
    unfold intDiv checkInt; rw [if_neg hG0, hq, if_pos hqr]
  have hmod : intMod (N : Int) (G : Int) = .ok ((N % G : Nat) : Int) := by
    unfold intMod; rw [if_neg hG0, hq, hr, if_pos hqr]
  unfold n_blocks
  rw [hdiv, ok_bind, hmod, ok_bind]
  unfold intAdd checkInt
  rw [hsum, if_pos hcr]

theorem ceilDiv_pos (n g : Nat) (hg : 0 < g) (hn : 0 < n) : 1 ≤ ceilDiv n g := by
  have hge := ceilDiv_mul_ge n g hg
  rcases Nat.eq_zero_or_pos (ceilDiv n g) with h | h
  · rw [h] at hge; omega
  · exact h

theorem ceilDiv_pred_mul_lt_int (n g : Nat) (hg : 0 < g) (hn : 0 < n) :
    (((ceilDiv n g : Nat) : Int) - 1) * (g : Int) < (n : Int) := by
  have hlt := ceilDiv_pred_mul_lt n g hg hn
  have h1 := ceilDiv_pos n g hg hn
  have : (((ceilDiv n g - 1) * g : Nat) : Int) < (n : Int) := by exact_mod_cast hlt
  push_cast [Nat.cast_sub h1] at this
  exact this

theorem ceilDiv_eq_ceil (n g : Nat) (hg : 0 < g) :
    ((ceilDiv n g : Nat) : Int) = ⌈((n : Int) : ℚ) / ((g : Int) : ℚ)⌉ := by
  have hge := ceilDiv_mul_ge n g hg
  have hgq : (0 : ℚ) < ((g : Int) : ℚ) := by exact_mod_cast hg
  symm
  rw [Int.ceil_eq_iff]
  constructor
  · rw [lt_div_iff₀ hgq]
    rcases Nat.eq_zero_or_pos n with h0 | hn
    · subst h0
      have : ceilDiv 0 g = 0 := by simp [ceilDiv]
      rw [this]; simp; exact_mod_cast hg
    · have := ceilDiv_pred_mul_lt_int n g hg hn
      exact_mod_cast this
  · rw [div_le_iff₀ hgq]
    exact_mod_cast hge

/-- Claim C4. For `int` values `N >= 0` and `G > 0` the block count of `main`,
`N / G + (N % G != 0)`, is computed without fault and equals `ceil(N / G)`; hence
`groups * G >= N`, and `(groups - 1) * G < N` when `N > 0`. With `G = 0` the
computation is a division by zero. -/
theorem n_blocks_eq_ceil (N G : Int) (hN : 0 ≤ N) (hN' : N ≤ INT_MAX)
    (hG : 0 < G) (_hG' : G ≤ INT_MAX) :
    (∃ groups : Int, n_blocks N G = .ok groups ∧
        groups = ⌈(N : ℚ) / (G : ℚ)⌉ ∧ groups * G ≥ N ∧ (0 < N → (groups - 1) * G < N)) ∧
      n_blocks N 0 = .error .divByZero := by
  refine ⟨?_, rfl⟩
  obtain ⟨n, rfl⟩ := Int.eq_ofNat_of_zero_le hN
  obtain ⟨g, rfl⟩ := Int.eq_ofNat_of_zero_le hG.le
  have hg : 0 < g := by omega
  have hge := ceilDiv_mul_ge n g hg
  refine ⟨((ceilDiv n g : Nat) : Int), n_blocks_ofNat n g hN' hg, ceilDiv_eq_ceil n g hg, ?_, ?_⟩
  · exact_mod_cast hge
  · intro hn
    exact ceilDiv_pred_mul_lt_int n g hg (by omega)

theorem n_blocks_eq_ceil_witness :
    ((∃ groups : Int, n_blocks 7 3 = .ok groups ∧
        groups = ⌈((7 : Int) : ℚ) / ((3 : Int) : ℚ)⌉ ∧ groups * 3 ≥ 7 ∧
        ((0 : Int) < 7 → (groups - 1) * 3 < 7)) ∧
      n_blocks 7 0 = .error .divByZero) :=
  n_blocks_eq_ceil 7 3 (by decide) (by decide) (by decide) (by decide)

/-! ## The index range of one thread -/

theorem threadElems_lt_vec_size (t E N i : Nat) (h : i ∈ threadElems t E N) : i < N := by
  unfold threadElems at h
  simp only at h
  split at h
  · rw [List.mem_range'_1] at h
    unfold threadLastElemIdxClipped at h
    split at h <;> omega
  · exact absurd h (List.not_mem_nil i)

theorem mem_threadElems_of_fits (t E N i : Nat) (h : t * E + E < SIZE_MOD) :
    i ∈ threadElems t E N ↔ t * E ≤ i ∧ i < min (t * E + E) N := by
  have h1 : t * E % SIZE_MOD = t * E := Nat.mod_eq_of_lt (by omega)
  have h2 : (t * E + E) % SIZE_MOD = t * E + E := Nat.mod_eq_of_lt h
  unfold threadElems threadFirstElemIdx threadLastElemIdx threadLastElemIdxClipped
  simp only [h1, h2]
  split
  · rw [List.mem_range'_1]
    split <;> omega
  · simp only [List.not_mem_nil, false_iff]
    omega

theorem threadElems_eq_nil_of_ge (t E N : Nat) (h : t * E < SIZE_MOD) (hN : N ≤ t * E) :
    threadElems t E N = [] := by
  have h1 : t * E % SIZE_MOD = t * E := Nat.mod_eq_of_lt h
  unfold threadElems threadFirstElemIdx
  simp only [h1]
  rw [if_neg (by omega)]

theorem div_eq_iff_mul_le_lt (i E t : Nat) (hE : 0 < E) :
    t = i / E ↔ t * E ≤ i ∧ i < t * E + E := by
  constructor
  · rintro rfl
    have h1 := Nat.div_add_mod i E
    have h2 := Nat.mod_lt i hE
    rw [Nat.mul_comm] at h1
    omega
  · rintro ⟨h1, h2⟩
    symm
    apply Nat.div_eq_of_lt_le h1
    rw [Nat.succ_mul]; exact h2

theorem threadElems_one (t N : Nat) (ht : t + 1 < SIZE_MOD) :
    threadElems t 1 N = if t < N then [t] else [] := by
  have h1 : t * 1 % SIZE_MOD = t := by rw [Nat.mul_one]; exact Nat.mod_eq_of_lt (by omega)
  have h2 : (t + 1) % SIZE_MOD = t + 1 := Nat.mod_eq_of_lt ht
  unfold threadElems threadFirstElemIdx threadLastElemIdx threadLastElemIdxClipped
  simp only [h1, h2]
  split
  · rename_i h
    have : (if N > t + 1 then t + 1 else N) - t = 1 := by split <;> omega
    rw [this]; rfl
  · rfl

/-! ## The work division of `main` on valid input -/

theorem toSize_ofNat (n : Nat) (h : n < SIZE_MOD) : toSize (n : Int) = n := by
  unfold toSize
  have : ((n : Int) % (SIZE_MOD : Int)) = ((n % SIZE_MOD : Nat) : Int) := by
    exact_mod_cast rfl
  rw [this, Int.toNat_ofNat, Nat.mod_eq_of_lt h]

theorem ceilDiv_mul_lt (N G : Nat) (hG : 0 < G) : ceilDiv N G * G < N + G := by
  rcases Nat.eq_zero_or_pos N with h0 | hN
  · subst h0
    have : ceilDiv 0 G = 0 := by simp [ceilDiv]
    rw [this]; omega
  · have h := ceilDiv_pred_mul_lt N G hG hN
    have hge := ceilDiv_mul_ge N G hG
    have h1 : 1 ≤ ceilDiv N G := by
      rcases Nat.eq_zero_or_pos (ceilDiv N G) with h | h
      · rw [h] at hge; omega
      · exact h
    have : ceilDiv N G * G = (ceilDiv N G - 1) * G + G := by
      rw [Nat.sub_mul, Nat.one_mul]
      have : G ≤ ceilDiv N G * G := Nat.le_mul_of_pos_left G h1
      omega
    omega

theorem int_bound_lt_size (n : Nat) (h : (n : Int) ≤ INT_MAX) : n < 2147483648 := by
  unfold INT_MAX at h; omega

theorem mainWorkDiv_ofNat (N G : Nat) (hN : (N : Int) ≤ INT_MAX) (hG : 0 < G)
    (hG' : (G : Int) ≤ INT_MAX) :
    mainWorkDiv (N : Int) (G : Int) =
      .ok { blocksPerGrid := ceilDiv N G, threadsPerBlock := G, elementsPerThread := 1 } := by
  have hn := int_bound_lt_size N hN
  have hg := int_bound_lt_size G hG'
  have hc := ceilDiv_le N G
  unfold mainWorkDiv
  rw [n_blocks_ofNat N G hN hG, ok_bind,
    toSize_ofNat _ (by unfold SIZE_MOD; omega), toSize_ofNat _ (by unfold SIZE_MOD; omega)]
  rfl

theorem main_grid_lt (N G : Nat) (hN : (N : Int) ≤ INT_MAX) (hG : 0 < G)
    (hG' : (G : Int) ≤ INT_MAX) : ceilDiv N G * G + 1 < SIZE_MOD := by
  have hn := int_bound_lt_size N hN
  have hg := int_bound_lt_size G hG'
  have := ceilDiv_mul_lt N G hG
  unfold SIZE_MOD; omega

theorem blockThreads_eq_range' (wd : WorkDiv) (k : Nat)
    (h : k * wd.threadsPerBlock + wd.threadsPerBlock ≤ SIZE_MOD) :
    blockThreads wd k = List.range' (k * wd.threadsPerBlock) wd.threadsPerBlock := by
  unfold blockThreads
  apply List.ext_getElem
  · simp
  · intro i h1 h2
    simp only [List.length_map, List.length_range] at h1
    simp only [List.getElem_map, List.getElem_range, List.getElem_range', getIdx, Nat.one_mul]
    exact Nat.mod_eq_of_lt (by omega)

theorem gridThreads_eq_range_aux (G : Nat) (nb : Nat) (E : Nat) (h : nb * G ≤ SIZE_MOD) :
    (List.range nb).flatMap (blockThreads ⟨nb, G, E⟩) = List.range (nb * G) := by
  suffices H : ∀ m, m ≤ nb →
      (List.range m).flatMap (blockThreads ⟨nb, G, E⟩) = List.range (m * G) from H nb le_rfl
  intro m
  induction m with
  | zero => intro _; simp
  | succ m ih =>
    intro hm
    have hle : (m + 1) * G ≤ nb * G := Nat.mul_le_mul_right G hm
    have hexp : (m + 1) * G = m * G + G := by rw [Nat.add_mul, Nat.one_mul]
    rw [List.range_succ, List.flatMap_append, ih (by omega)]
    simp only [List.flatMap_cons, List.flatMap_nil, List.append_nil]
    rw [blockThreads_eq_range' _ _ (by show m * G + G ≤ SIZE_MOD; omega)]
    show List.range (m * G) ++ List.range' (m * G) G = List.range ((m + 1) * G)
    rw [hexp, List.range_eq_range', List.range_eq_range']
    have := List.range'_append_1 0 (m * G) G
    rw [Nat.zero_add, Nat.add_comm G] at this
    exact this

theorem gridThreads_eq_range (wd : WorkDiv)
    (h : wd.blocksPerGrid * wd.threadsPerBlock ≤ SIZE_MOD) :
    gridThreads wd = List.range (wd.blocksPerGrid * wd.threadsPerBlock) := by
  obtain ⟨nb, G, E⟩ := wd
  exact gridThreads_eq_range_aux G nb E h

/-! ## Running one-element threads -/

theorem elemStep_eq (b c : List Int) (t : Nat) (hc : t < c.length) (hb : t < b.length) :
    elemStep b c t =
      if inIntRange (c.getD t 0 + b.getD t 0)
      then .ok (c.set t (c.getD t 0 + b.getD t 0)) else .error .signedOverflow := by
  have h1 : (c : List Int)[t]? = some (c.getD t 0) := by
    rw [List.getD_eq_getElem?_getD, List.getElem?_eq_getElem hc]; rfl
  have h2 : b[t]? = some (b.getD t 0) := by
    rw [List.getD_eq_getElem?_getD, List.getElem?_eq_getElem hb]; rfl
  unfold elemStep readAt
  rw [h1, h2]
  simp only [ok_bind]
  unfold intAdd checkInt
  split
  · rw [ok_bind]; unfold writeAt; rw [if_pos hc]
  · rfl

theorem kernel_one (t N : Nat) (a b c : List Int) (ht : t + 1 < SIZE_MOD) :
    vector_addition_kernel t 1 a b c N = if t < N then elemStep b c t else .ok c := by
  unfold vector_addition_kernel
  rw [threadElems_one t N ht]
  split
  · show (elemStep b c t >>= fun c1 => Except.ok c1) = elemStep b c t
    cases elemStep b c t <;> rfl
  · rfl

theorem bumpOn_length (ts : List Nat) (b c : List Int) : (bumpOn ts b c).length = c.length := by
  simp [bumpOn]

theorem bumpOn_getD (ts : List Nat) (b c : List Int) (i : Nat) (hi : i < c.length) :
    (bumpOn ts b c).getD i 0 = if i ∈ ts then c.getD i 0 + b.getD i 0 else c.getD i 0 := by
  have hlen : i < (bumpOn ts b c).length := by rw [bumpOn_length]; exact hi
  rw [List.getD_eq_getElem?_getD, List.getElem?_eq_getElem hlen]
  simp [bumpOn]

theorem list_ext_getD (l₁ l₂ : List Int) (hlen : l₁.length = l₂.length)
    (h : ∀ i, i < l₁.length → l₁.getD i 0 = l₂.getD i 0) : l₁ = l₂ := by
  apply List.ext_getElem hlen
  intro i h1 h2
  have := h i h1
  rw [List.getD_eq_getElem?_getD, List.getD_eq_getElem?_getD,
    List.getElem?_eq_getElem h1, List.getElem?_eq_getElem h2] at this
  exact this

theorem getD_set_ne (c : List Int) (t i : Nat) (v : Int) (h : i ≠ t) :
    (c.set t v).getD i 0 = c.getD i 0 := by
  rw [List.getD_eq_getElem?_getD, List.getD_eq_getElem?_getD, List.getElem?_set]
  rw [if_neg (Ne.symm h)]

theorem getD_set_eq (c : List Int) (t : Nat) (v : Int) (h : t < c.length) :
    (c.set t v).getD t 0 = v := by
  rw [List.getD_eq_getElem?_getD, List.getElem?_set]
  simp [h]

theorem runThreads_cons (wd : WorkDiv) (t : Nat) (ts : List Nat) (a b c : List Int) (N : Nat) :
    runThreads wd (t :: ts) a b c N =
      (vector_addition_kernel t wd.elementsPerThread a b c N >>=
        fun c1 => runThreads wd ts a b c1 N) := rfl

theorem runThreads_nil (wd : WorkDiv) (a b c : List Int) (N : Nat) :
    runThreads wd [] a b c N = .ok c := rfl

theorem runThreads_nodup (wd : WorkDiv) (hE : wd.elementsPerThread = 1) (a b : List Int)
    (N : Nat) (hb : b.length = N) :
    ∀ (ts : List Nat), ts.Nodup → (∀ t ∈ ts, t + 1 < SIZE_MOD) →
      ∀ c : List Int, c.length = N →
        runThreads wd ts a b c N =
          if ∀ t ∈ ts, t < N → inIntRange (c.getD t 0 + b.getD t 0)
          then .ok (bumpOn ts b c) else .error .signedOverflow := by
  intro ts
  induction ts with
  | nil =>
    intro _ _ c hc
    rw [runThreads_nil, if_pos (by simp)]
    congr 1
    apply list_ext_getD
    · rw [bumpOn_length]
    · intro i hi
      rw [bumpOn_getD _ _ _ _ hi, if_neg (List.not_mem_nil i)]
  | cons t ts ih =>
    intro hnd hlt c hc
    have hnd' := (List.nodup_cons.mp hnd)
    have hlt' : ∀ t' ∈ ts, t' + 1 < SIZE_MOD := fun t' h => hlt t' (List.mem_cons_of_mem _ h)
    rw [runThreads_cons, hE, kernel_one t N a b c (hlt t (List.mem_cons_self _ _))]
    by_cases htN : t < N
    · rw [if_pos htN, elemStep_eq b c t (by omega) (by omega)]
      by_cases hfit : inIntRange (c.getD t 0 + b.getD t 0)
      · rw [if_pos hfit, ok_bind, ih hnd'.2 hlt' _ (by rw [List.length_set]; exact hc)]
        have hcond : (∀ t' ∈ ts, t' < N →
              inIntRange ((c.set t (c.getD t 0 + b.getD t 0)).getD t' 0 + b.getD t' 0)) ↔
            (∀ t' ∈ t :: ts, t' < N → inIntRange (c.getD t' 0 + b.getD t' 0)) := by
          constructor
          · intro h t' ht' hN'
            rcases List.mem_cons.mp ht' with rfl | hmem
            · exact hfit
            · have hne : t' ≠ t := fun e => hnd'.1 (e ▸ hmem)
              have := h t' hmem hN'
              rwa [getD_set_ne _ _ _ _ hne] at this
          · intro h t' hmem hN'
            have hne : t' ≠ t := fun e => hnd'.1 (e ▸ hmem)
            rw [getD_set_ne _ _ _ _ hne]
            exact h t' (List.mem_cons_of_mem _ hmem) hN'
        by_cases hall : ∀ t' ∈ t :: ts, t' < N → inIntRange (c.getD t' 0 + b.getD t' 0)
        · rw [if_pos hall, if_pos (hcond.mpr hall)]
          congr 1
          apply list_ext_getD
          · rw [bumpOn_length, bumpOn_length, List.length_set]
          · intro i hi
            rw [bumpOn_length, List.length_set] at hi
            rw [bumpOn_getD _ _ _ _ (by rw [List.length_set]; exact hi), bumpOn_getD _ _ _ _ hi]
            by_cases hit : i = t
            · subst hit
              rw [if_neg hnd'.1, if_pos (List.mem_cons_self _ _), getD_set_eq _ _ _ hi]
            · rw [getD_set_ne _ _ _ _ hit]
              have : i ∈ t :: ts ↔ i ∈ ts := by
                rw [List.mem_cons]; exact ⟨fun h => h.resolve_left hit, Or.inr⟩
              simp only [this]
        · rw [if_neg hall, if_neg (fun h => hall (hcond.mp h))]
      · rw [if_neg hfit, error_bind, if_neg]
        intro h
        exact hfit (h t (List.mem_cons_self _ _) htN)
    · rw [if_neg htN, ok_bind, ih hnd'.2 hlt' c hc]
      have hcond : (∀ t' ∈ ts, t' < N → inIntRange (c.getD t' 0 + b.getD t' 0)) ↔
          (∀ t' ∈ t :: ts, t' < N → inIntRange (c.getD t' 0 + b.getD t' 0)) := by
        constructor
        · intro h t' ht' hN'
          rcases List.mem_cons.mp ht' with rfl | hmem
          · exact absurd hN' htN
          · exact h t' hmem hN'
        · intro h t' hmem hN'
          exact h t' (List.mem_cons_of_mem _ hmem) hN'
      by_cases hall : ∀ t' ∈ t :: ts, t' < N → inIntRange (c.getD t' 0 + b.getD t' 0)
      · rw [if_pos hall, if_pos (hcond.mpr hall)]
        congr 1
        apply list_ext_getD
        · rw [bumpOn_length, bumpOn_length]
        · intro i hi
          rw [bumpOn_length] at hi
          rw [bumpOn_getD _ _ _ _ hi, bumpOn_getD _ _ _ _ hi]
          have hit : i ≠ t := by omega
          have : i ∈ t :: ts ↔ i ∈ ts := by
            rw [List.mem_cons]; exact ⟨fun h => h.resolve_left hit, Or.inr⟩
          simp only [this]
      · rw [if_neg hall, if_neg (fun h => hall (hcond.mp h))]

/-! ## One run over the whole grid -/

theorem zipWith_add_getD (b c : List Int) (i : Nat) (hc : i < c.length) (hb : i < b.length) :
    (List.zipWith (· + ·) c b).getD i 0 = c.getD i 0 + b.getD i 0 := by
  have hlen : i < (List.zipWith (· + ·) c b).length := by
    rw [List.length_zipWith]; omega
  rw [List.getD_eq_getElem?_getD, List.getD_eq_getElem?_getD, List.getD_eq_getElem?_getD,
    List.getElem?_eq_getElem hlen, List.getElem?_eq_getElem hc, List.getElem?_eq_getElem hb]
  simp

theorem runThreads_perm_range (wd : WorkDiv) (hE : wd.elementsPerThread = 1)
    (a b c : List Int) (N T : Nat) (hb : b.length = N) (hc : c.length = N)
    (hNT : N ≤ T) (hT : T < SIZE_MOD) (ts : List Nat) (hp : ts.Perm (List.range T)) :
    runThreads wd ts a b c N = addInPlace b c := by
  have hmem : ∀ i, i ∈ ts ↔ i < T := fun i => by rw [hp.mem_iff, List.mem_range]
  have hnd : ts.Nodup := hp.nodup_iff.mpr (List.nodup_range T)
  rw [runThreads_nodup wd hE a b N hb ts hnd
    (fun t ht => by have := (hmem t).mp ht; omega) c hc]
  have hcond : (∀ t ∈ ts, t < N → inIntRange (c.getD t 0 + b.getD t 0)) ↔
      sumsFit c.length b c := by
    unfold sumsFit
    rw [hc]
    constructor
    · intro h i hi
      exact h i ((hmem i).mpr (by omega)) hi
    · intro h t _ htN
      exact h t htN
  unfold addInPlace
  by_cases hfit : sumsFit c.length b c
  · rw [if_pos hfit, if_pos (hcond.mpr hfit)]
    congr 1
    apply list_ext_getD
    · rw [bumpOn_length, List.length_zipWith]; omega
    · intro i hi
      rw [bumpOn_length] at hi
      rw [bumpOn_getD _ _ _ _ hi, if_pos ((hmem i).mpr (by omega)),
        zipWith_add_getD b c i hi (by omega)]
  · rw [if_neg hfit, if_neg (fun h => hfit (hcond.mp h))]

theorem launch_eq (N G : Nat) (hN : (N : Int) ≤ INT_MAX) (hG : 0 < G)
    (hG' : (G : Int) ≤ INT_MAX) (a b c : List Int) (hb : b.length = N) (hc : c.length = N) :
    launch (N : Int) (G : Int) a b c = addInPlace b c := by
  have hlt := main_grid_lt N G hN hG hG'
  have hge := ceilDiv_mul_ge N G hG
  have hn := int_bound_lt_size N hN
  unfold launch
  rw [mainWorkDiv_ofNat N G hN hG hG', ok_bind, toSize_ofNat N (by unfold SIZE_MOD; omega)]
  unfold runGrid
  rw [gridThreads_eq_range _ (by show ceilDiv N G * G ≤ SIZE_MOD; omega)]
  exact runThreads_perm_range _ rfl a b c N (ceilDiv N G * G) hb hc hge (by omega) _
    (List.Perm.refl _)

/-! ## The kernel postcondition -/

theorem addInPlace_ok (b c : List Int) (N : Nat) (hb : b.length = N) (hc : c.length = N)
    (hfit : sumsFit N b c) :
    ∃ c1, addInPlace b c = .ok c1 ∧ c1.length = N ∧
      ∀ i, i < N → c1.getD i 0 = c.getD i 0 + b.getD i 0 := by
  refine ⟨List.zipWith (· + ·) c b, ?_, ?_, ?_⟩
  · unfold addInPlace; rw [if_pos (hc ▸ hfit)]
  · rw [List.length_zipWith]; omega
  · intro i hi
    exact zipWith_add_getD b c i (by omega) (by omega)

/-- Claim C1. For `int` values `N >= 0` and `G > 0` and buffers `b`, `c` of length
`N` whose sums `c[i] + b[i]` are values of `int`, one run of the kernel over the
work division of `main` ends without fault in a buffer of length `N` whose entry
`i` is `c[i] + b[i]`, for every `i < N`. -/
theorem kernel_postcondition (N G : Nat) (hN : (N : Int) ≤ INT_MAX) (hG : 0 < G)
    (hG' : (G : Int) ≤ INT_MAX) (a b c : List Int) (hb : b.length = N) (hc : c.length = N)
    (hfit : sumsFit N b c) :
    ∃ c1, launch (N : Int) (G : Int) a b c = .ok c1 ∧ c1.length = N ∧
      ∀ i, i < N → c1.getD i 0 = c.getD i 0 + b.getD i 0 := by
  rw [launch_eq N G hN hG hG' a b c hb hc]
  exact addInPlace_ok b c N hb hc hfit

theorem kernel_postcondition_witness :
    ∃ c1, launch ((5 : Nat) : Int) ((2 : Nat) : Int) [9, 9, 9, 9, 9] [0, 1, 2, 3, 4]
        [10, 20, 30, 40, 50] = .ok c1 ∧ c1.length = 5 ∧
      ∀ i, i < 5 →
        c1.getD i 0 = ([10, 20, 30, 40, 50] : List Int).getD i 0
          + ([0, 1, 2, 3, 4] : List Int).getD i 0 :=
  kernel_postcondition 5 2 (by decide) (by decide) (by decide) [9, 9, 9, 9, 9] [0, 1, 2, 3, 4]
    [10, 20, 30, 40, 50] rfl rfl (by decide)

/-- Claim C2 (fails on the code). With `a = b = [0, 1]` and `c = [0, 0]`, as `main`
fills them for `N = 2`, and `G = 1`, the kernel leaves `c = [0, 1]`: entry `1` is
`1`, not `a[1] + b[1] = 2`. The buffer `a` has no influence on the result. -/
theorem kernel_output_is_not_a_plus_b :
    launch 2 1 [0, 1] [0, 1] [0, 0] = .ok [0, 1] ∧
      ([0, 1] : List Int).getD 1 0 ≠
        ([0, 1] : List Int).getD 1 0 + ([0, 1] : List Int).getD 1 0 ∧
      launch 2 1 [5, 7] [0, 1] [0, 0] = launch 2 1 [0, 1] [0, 1] [0, 0] := by
  decide

theorem flatMap_threadElems_range' (N : Nat) :
    ∀ (n s : Nat), s + n < SIZE_MOD →
      (List.range' s n).flatMap (fun t => threadElems t 1 N) =
        List.range' s (min (s + n) N - s) := by
  intro n
  induction n with
  | zero =>
    intro s _
    have : min (s + 0) N - s = 0 := by omega
    rw [this]; rfl
  | succ n ih =>
    intro s hs
    rw [List.range'_succ, List.flatMap_cons, ih (s + 1) (by omega),
      threadElems_one s N (by omega)]
    by_cases h : s < N
    · rw [if_pos h]
      have : min (s + (n + 1)) N - s = (min (s + 1 + n) N - (s + 1)) + 1 := by omega
      rw [this, List.range'_succ]; rfl
    · rw [if_neg h]
      have h1 : min (s + 1 + n) N - (s + 1) = 0 := by omega
      have h2 : min (s + (n + 1)) N - s = 0 := by omega
      rw [h1, h2]; rfl

theorem blockElems_eq (nb G N k : Nat) (h : k * G + G < SIZE_MOD) :
    blockElems ⟨nb, G, 1⟩ N k = List.range' (k * G) (min (k * G + G) N - k * G) := by
  unfold blockElems
  rw [blockThreads_eq_range' _ _ (by show k * G + G ≤ SIZE_MOD; omega)]
  exact flatMap_threadElems_range' N G (k * G) h

theorem block_mul_lt (N G k : Nat) (hG : 0 < G) (hk : k < ceilDiv N G) : k * G < N := by
  rcases Nat.eq_zero_or_pos N with h0 | hN
  · subst h0
    have : ceilDiv 0 G = 0 := by simp [ceilDiv]
    omega
  · have h := ceilDiv_pred_mul_lt N G hG hN
    have : k * G ≤ (ceilDiv N G - 1) * G := Nat.mul_le_mul_right G (by omega)
    omega

theorem block_succ_mul_le (N G k : Nat) (hk : k < ceilDiv N G) :
    k * G + G ≤ ceilDiv N G * G := by
  have : (k + 1) * G ≤ ceilDiv N G * G := Nat.mul_le_mul_right G hk
  rw [Nat.add_mul, Nat.one_mul] at this
  exact this

/-- Claim C5. For `int` values `N >= 0` and `G > 0`, the work division of `main` has
`ceil(N / G)` blocks; the indices processed by the `G` one-element threads of
block `k` are exactly `k*G, ..., min(k*G + G, N) - 1`; each such chunk is
non-empty and has at most `G` indices; chunks of different blocks are disjoint;
and an index lies in some chunk exactly when it is below `N`. -/
theorem chunks_partition (N G : Nat) (hN : (N : Int) ≤ INT_MAX) (hG : 0 < G)
    (hG' : (G : Int) ≤ INT_MAX) :
    ∃ wd, mainWorkDiv (N : Int) (G : Int) = .ok wd ∧
      (wd.blocksPerGrid : Int) = ⌈((N : Int) : ℚ) / ((G : Int) : ℚ)⌉ ∧
      (∀ k, k < wd.blocksPerGrid →
        blockElems wd N k = List.range' (k * G) (min (k * G + G) N - k * G) ∧
        blockElems wd N k ≠ [] ∧ (blockElems wd N k).length ≤ G) ∧
      (∀ k₁ k₂, k₁ < wd.blocksPerGrid → k₂ < wd.blocksPerGrid → k₁ ≠ k₂ →
        ∀ i, i ∈ blockElems wd N k₁ → i ∉ blockElems wd N k₂) ∧
      (∀ i, i < N ↔ ∃ k, k < wd.blocksPerGrid ∧ i ∈ blockElems wd N k) := by
  have hlt := main_grid_lt N G hN hG hG'
  have hge := ceilDiv_mul_ge N G hG
  have hfit : ∀ k, k < ceilDiv N G → k * G + G < SIZE_MOD := fun k hk => by
    have := block_succ_mul_le N G k hk; omega
  have hmem : ∀ k, k < ceilDiv N G → ∀ i,
      i ∈ blockElems ⟨ceilDiv N G, G, 1⟩ N k ↔ k * G ≤ i ∧ i < k * G + G ∧ i < N := by
    intro k hk i
    rw [blockElems_eq _ G N k (hfit k hk), List.mem_range'_1]
    have := block_mul_lt N G k hG hk
    omega
  refine ⟨_, mainWorkDiv_ofNat N G hN hG hG', ?_, ?_, ?_, ?_⟩
  · exact ceilDiv_eq_ceil N G hG
  · intro k hk
    have hk' : k < ceilDiv N G := hk
    have hkN := block_mul_lt N G k hG hk'
    have heq := blockElems_eq (ceilDiv N G) G N k (hfit k hk')
    refine ⟨heq, ?_, ?_⟩
    · intro hnil
      have : k * G ∈ blockElems ⟨ceilDiv N G, G, 1⟩ N k := (hmem k hk' _).mpr (by omega)
      rw [hnil] at this
      exact absurd this (List.not_mem_nil _)
    · rw [heq, List.length_range']; omega
  · intro k₁ k₂ h1 h2 hne i hi1 hi2
    have hi1' := (hmem k₁ h1 i).mp hi1
    have hi2' := (hmem k₂ h2 i).mp hi2
    rcases Nat.lt_or_gt_of_ne hne with hlt' | hlt'
    · have : (k₁ + 1) * G ≤ k₂ * G := Nat.mul_le_mul_right G hlt'
      rw [Nat.add_mul, Nat.one_mul] at this
      omega
    · have : (k₂ + 1) * G ≤ k₁ * G := Nat.mul_le_mul_right G hlt'
      rw [Nat.add_mul, Nat.one_mul] at this
      omega
  · intro i
    constructor
    · intro hi
      have hdiv := (div_eq_iff_mul_le_lt i G (i / G) hG).mp rfl
      have hk : i / G < ceilDiv N G := by
        by_contra hcon
        have : ceilDiv N G * G ≤ i / G * G := Nat.mul_le_mul_right G (by omega)
        omega
      exact ⟨i / G, hk, (hmem _ hk i).mpr ⟨hdiv.1, hdiv.2, hi⟩⟩
    · rintro ⟨k, hk, hi⟩
      exact ((hmem k hk i).mp hi).2.2

theorem chunks_partition_witness :
    ∃ wd, mainWorkDiv ((7 : Nat) : Int) ((3 : Nat) : Int) = .ok wd ∧
      (wd.blocksPerGrid : Int) = ⌈(((7 : Nat) : Int) : ℚ) / (((3 : Nat) : Int) : ℚ)⌉ ∧
      (∀ k, k < wd.blocksPerGrid →
        blockElems wd 7 k = List.range' (k * 3) (min (k * 3 + 3) 7 - k * 3) ∧
        blockElems wd 7 k ≠ [] ∧ (blockElems wd 7 k).length ≤ 3) ∧
      (∀ k₁ k₂, k₁ < wd.blocksPerGrid → k₂ < wd.blocksPerGrid → k₁ ≠ k₂ →
        ∀ i, i ∈ blockElems wd 7 k₁ → i ∉ blockElems wd 7 k₂) ∧
      (∀ i, i < 7 ↔ ∃ k, k < wd.blocksPerGrid ∧ i ∈ blockElems wd 7 k) :=
  chunks_partition 7 3 (by decide) (by decide) (by decide)

/-! ## Coverage by threads -/

theorem thread_succ_mul_le (E T t : Nat) (ht : t < T) : t * E + E ≤ T * E := by
  have : (t + 1) * E ≤ T * E := Nat.mul_le_mul_right E ht
  rw [Nat.add_mul, Nat.one_mul] at this
  exact this

/-- Claim C6 (as amended). Let `E > 0` and `T` be such that `N <= T * E` and `T * E`
is a value of the index type (`T * E < 2 ^ 64`). Then every index `i < N` is in
the index range of exactly one grid thread `t < T`, namely `t = i / E`; the index
range of thread `t` is `[t*E, min(t*E + E, N))`; and a thread with `t * E >= N`
processes no index. The configuration of `main` for `int` values `N >= 0` and
`G > 0`, that is `E = 1` and `T = ceil(N/G) * G` with grid threads
`0, ..., T - 1`, satisfies these conditions. -/
theorem one_thread_per_index (N E T : Nat) (hE : 0 < E) (hNT : N ≤ T * E)
    (hT : T * E < SIZE_MOD) :
    (∀ i, i < N →
      (∃! t, t < T ∧ i ∈ threadElems t E N) ∧ i / E < T ∧ i ∈ threadElems (i / E) E N) ∧
    (∀ t, t < T → ∀ i, i ∈ threadElems t E N ↔ t * E ≤ i ∧ i < min (t * E + E) N) ∧
    (∀ t, t < T → N ≤ t * E → threadElems t E N = []) ∧
    (∀ n g : Nat, (n : Int) ≤ INT_MAX → 0 < g → (g : Int) ≤ INT_MAX →
      ∃ wd, mainWorkDiv (n : Int) (g : Int) = .ok wd ∧ wd.elementsPerThread = 1 ∧
        gridThreads wd = List.range (ceilDiv n g * g) ∧
        n ≤ ceilDiv n g * g * 1 ∧ ceilDiv n g * g * 1 < SIZE_MOD) := by
  have hfit : ∀ t, t < T → t * E + E < SIZE_MOD := fun t ht => by
    have := thread_succ_mul_le E T t ht; omega
  have hmem : ∀ t, t < T → ∀ i, i ∈ threadElems t E N ↔ t * E ≤ i ∧ i < min (t * E + E) N :=
    fun t ht i => mem_threadElems_of_fits t E N i (hfit t ht)
  refine ⟨?_, hmem, ?_, ?_⟩
  · intro i hi
    have hdiv := (div_eq_iff_mul_le_lt i E (i / E) hE).mp rfl
    have hlt : i / E < T := by
      by_contra hcon
      have : T * E ≤ i / E * E := Nat.mul_le_mul_right E (by omega)
      omega
    have hin : i ∈ threadElems (i / E) E N := (hmem _ hlt i).mpr (by omega)
    refine ⟨⟨i / E, ⟨hlt, hin⟩, ?_⟩, hlt, hin⟩
    rintro t ⟨ht, hti⟩
    have := (hmem t ht i).mp hti
    exact (div_eq_iff_mul_le_lt i E t hE).mpr (by omega)
  · intro t ht hN
    exact threadElems_eq_nil_of_ge t E N (by have := hfit t ht; omega) hN
  · intro n g hn hg hg'
    have hlt := main_grid_lt n g hn hg hg'
    refine ⟨_, mainWorkDiv_ofNat n g hn hg hg', rfl, ?_, ?_, ?_⟩
    · exact gridThreads_eq_range _ (by show ceilDiv n g * g ≤ SIZE_MOD; omega)
    · rw [Nat.mul_one]; exact ceilDiv_mul_ge n g hg
    · rw [Nat.mul_one]; omega

theorem one_thread_per_index_witness :
    (∀ i, i < 7 →
      (∃! t, t < 4 ∧ i ∈ threadElems t 2 7) ∧ i / 2 < 4 ∧ i ∈ threadElems (i / 2) 2 7) ∧
    (∀ t, t < 4 → ∀ i, i ∈ threadElems t 2 7 ↔ t * 2 ≤ i ∧ i < min (t * 2 + 2) 7) ∧
    (∀ t, t < 4 → 7 ≤ t * 2 → threadElems t 2 7 = []) ∧
    (∀ n g : Nat, (n : Int) ≤ INT_MAX → 0 < g → (g : Int) ≤ INT_MAX →
      ∃ wd, mainWorkDiv (n : Int) (g : Int) = .ok wd ∧ wd.elementsPerThread = 1 ∧
        gridThreads wd = List.range (ceilDiv n g * g) ∧
        n ≤ ceilDiv n g * g * 1 ∧ ceilDiv n g * g * 1 < SIZE_MOD) :=
  one_thread_per_index 7 2 4 (by decide) (by decide) (by decide)

/-- Claim C6 (as stated, fails). Without a bound on `T * E` the claim is false: with
`N = 5`, `E = 2 ^ 63` and `T = 4` (so `T * E >= N`), thread `2` computes its first
index `2 * 2 ^ 63` in the 64-bit index type as `0`, so index `0` is processed
both by thread `0` and by thread `2`. -/
theorem one_thread_per_index_fails_on_wrap :
    ¬ (∀ N E T : Nat, 0 < E → N ≤ T * E →
        ∀ i, i < N → ∃! t, t < T ∧ i ∈ threadElems t E N) := by
  intro h
  obtain ⟨t, -, huniq⟩ := h 5 9223372036854775808 4 (by decide) (by decide) 0 (by decide)
  have h0 : (0 : Nat) = t := huniq 0 ⟨by decide, by decide⟩
  have h2 : (2 : Nat) = t := huniq 2 ⟨by decide, by decide⟩
  omega

/-! ## Absence of out-of-bounds accesses -/

theorem elemStep_safe (b c : List Int) (N i : Nat) (hb : b.length = N) (hc : c.length = N)
    (hi : i < N) :
    (∃ c1, elemStep b c i = .ok c1 ∧ c1.length = N) ∨
      elemStep b c i = .error .signedOverflow := by
  rw [elemStep_eq b c i (by omega) (by omega)]
  split
  · exact Or.inl ⟨_, rfl, by rw [List.length_set]; exact hc⟩
  · exact Or.inr rfl

theorem foldlM_elemStep_safe (b : List Int) (N : Nat) (hb : b.length = N) :
    ∀ (l : List Nat), (∀ i ∈ l, i < N) → ∀ c : List Int, c.length = N →
      (∃ c1, l.foldlM (elemStep b) c = .ok c1 ∧ c1.length = N) ∨
        l.foldlM (elemStep b) c = .error .signedOverflow := by
  intro l
  induction l with
  | nil => intro _ c hc; exact Or.inl ⟨c, rfl, hc⟩
  | cons i l ih =>
    intro hl c hc
    rw [List.foldlM_cons]
    rcases elemStep_safe b c N i hb hc (hl i (List.mem_cons_self _ _)) with ⟨c1, h1, h2⟩ | h
    · rw [h1, ok_bind]
      exact ih (fun j hj => hl j (List.mem_cons_of_mem _ hj)) c1 h2
    · rw [h, error_bind]; exact Or.inr rfl

theorem kernel_safe (t E N : Nat) (a b c : List Int) (hb : b.length = N) (hc : c.length = N) :
    (∃ c1, vector_addition_kernel t E a b c N = .ok c1 ∧ c1.length = N) ∨
      vector_addition_kernel t E a b c N = .error .signedOverflow :=
  foldlM_elemStep_safe b N hb _ (fun i hi => threadElems_lt_vec_size t E N i hi) c hc

theorem runThreads_safe (wd : WorkDiv) (N : Nat) (a b : List Int) (hb : b.length = N) :
    ∀ (ts : List Nat) (c : List Int), c.length = N →
      (∃ c1, runThreads wd ts a b c N = .ok c1 ∧ c1.length = N) ∨
        runThreads wd ts a b c N = .error .signedOverflow := by
  intro ts
  induction ts with
  | nil => intro c hc; exact Or.inl ⟨c, rfl, hc⟩
  | cons t ts ih =>
    intro c hc
    rw [runThreads_cons]
    rcases kernel_safe t wd.elementsPerThread N a b c hb hc with ⟨c1, h1, h2⟩ | h
    · rw [h1, ok_bind]; exact ih c1 h2
    · rw [h, error_bind]; exact Or.inr rfl

theorem ne_outOfBounds_of_safe (N : Nat) (r : Except Fault (List Int))
    (h : (∃ c1, r = .ok c1 ∧ c1.length = N) ∨ r = .error .signedOverflow) :
    r ≠ .error .outOfBounds := by
  rcases h with ⟨c1, h1, -⟩ | h
  · rw [h1]; exact fun e => by cases e
  · rw [h]; exact fun e => by cases e

/-- Claim C7. Every index at which a kernel invocation accesses `b` or `c` is below
`vec_size`, for any thread, any element extent and any `vec_size`. Hence with
buffers `b` and `c` of length `N` no invocation, no run over any work division,
and in particular no run over the work division of `main` for `int` values
`N >= 0` and `G > 0`, makes an access outside a buffer. -/
theorem no_out_of_bounds (N G : Nat) (hN : (N : Int) ≤ INT_MAX) (hG : 0 < G)
    (hG' : (G : Int) ≤ INT_MAX) (a b c : List Int) (hb : b.length = N) (hc : c.length = N) :
    (∀ t E i, i ∈ threadElems t E N → i < N) ∧
    (∀ t E, vector_addition_kernel t E a b c N ≠ .error .outOfBounds) ∧
    (∀ wd, runGrid wd a b c N ≠ .error .outOfBounds) ∧
    launch (N : Int) (G : Int) a b c ≠ .error .outOfBounds := by
  refine ⟨fun t E i h => threadElems_lt_vec_size t E N i h, ?_, ?_, ?_⟩
  · intro t E
    exact ne_outOfBounds_of_safe N _ (kernel_safe t E N a b c hb hc)
  · intro wd
    exact ne_outOfBounds_of_safe N _ (runThreads_safe wd N a b hb _ c hc)
  · have hn := int_bound_lt_size N hN
    unfold launch
    rw [mainWorkDiv_ofNat N G hN hG hG', ok_bind, toSize_ofNat N (by unfold SIZE_MOD; omega)]
    exact ne_outOfBounds_of_safe N _ (runThreads_safe _ N a b hb _ c hc)

theorem no_out_of_bounds_witness :
    ((∀ t E i, i ∈ threadElems t E 7 → i < 7) ∧
      (∀ t E, vector_addition_kernel t E [] [0, 1, 2, 3, 4, 5, 6] [0, 0, 0, 0, 0, 0, 0] 7
        ≠ .error .outOfBounds) ∧
      (∀ wd, runGrid wd [] [0, 1, 2, 3, 4, 5, 6] [0, 0, 0, 0, 0, 0, 0] 7
        ≠ .error .outOfBounds) ∧
      launch ((7 : Nat) : Int) ((3 : Nat) : Int) [] [0, 1, 2, 3, 4, 5, 6]
        [0, 0, 0, 0, 0, 0, 0] ≠ .error .outOfBounds) ∧
    mainWorkDiv 7 3 = .ok ⟨3, 3, 1⟩ ∧ blockElems ⟨3, 3, 1⟩ 7 2 = [6] :=
  ⟨no_out_of_bounds 7 3 (by decide) (by decide) (by decide) [] [0, 1, 2, 3, 4, 5, 6]
    [0, 0, 0, 0, 0, 0, 0] rfl rfl, by decide, by decide⟩

/-! ## Repetition and order of execution -/

theorem launch_eq_runGrid (N G : Nat) (hN : (N : Int) ≤ INT_MAX) (hG : 0 < G)
    (hG' : (G : Int) ≤ INT_MAX) (a b x : List Int) :
    launch (N : Int) (G : Int) a b x = runGrid ⟨ceilDiv N G, G, 1⟩ a b x N := by
  have hn := int_bound_lt_size N hN
  unfold launch
  rw [mainWorkDiv_ofNat N G hN hG hG', ok_bind, toSize_ofNat N (by unfold SIZE_MOD; omega)]

/-- Claim C9. For `int` values `N >= 0` and `G > 0` and buffers `b`, `c` of length
`N` such that `c[i] + b[i]` and `c[i] + 2 * b[i]` are values of `int`: running the
kernel twice over the work division of `main`, the second time on the output of
the first, ends in a buffer of length `N` with entry `i` equal to
`c[i] + 2 * b[i]`; the second run changes the buffer again as soon as some
`b[i]` is not zero; and both runs are over one and the same work division, which
is computed from `N` and `G` alone. -/
theorem run_twice_adds_twice (N G : Nat) (hN : (N : Int) ≤ INT_MAX) (hG : 0 < G)
    (hG' : (G : Int) ≤ INT_MAX) (a b c : List Int) (hb : b.length = N) (hc : c.length = N)
    (hfit : sumsFit N b c)
    (hfit2 : ∀ i, i < N → inIntRange (c.getD i 0 + 2 * b.getD i 0)) :
    ∃ wd c1 c2, mainWorkDiv (N : Int) (G : Int) = .ok wd ∧
      (∀ x, launch (N : Int) (G : Int) a b x = runGrid wd a b x N) ∧
      launch (N : Int) (G : Int) a b c = .ok c1 ∧
      launch (N : Int) (G : Int) a b c1 = .ok c2 ∧
      c2.length = N ∧
      (∀ i, i < N → c2.getD i 0 = c.getD i 0 + 2 * b.getD i 0) ∧
      ((∃ i, i < N ∧ b.getD i 0 ≠ 0) → c2 ≠ c1) := by
  obtain ⟨c1, h1, hlen1, hval1⟩ := addInPlace_ok b c N hb hc hfit
  have hfit' : sumsFit N b c1 := by
    intro i hi
    rw [hval1 i hi]
    have := hfit2 i hi
    have e : c.getD i 0 + b.getD i 0 + b.getD i 0 = c.getD i 0 + 2 * b.getD i 0 := by ring
    rw [e]; exact this
  obtain ⟨c2, h2, hlen2, hval2⟩ := addInPlace_ok b c1 N hb hlen1 hfit'
  refine ⟨_, c1, c2, mainWorkDiv_ofNat N G hN hG hG',
    fun x => launch_eq_runGrid N G hN hG hG' a b x, ?_, ?_, hlen2, ?_, ?_⟩
  · rw [launch_eq N G hN hG hG' a b c hb hc, h1]
  · rw [launch_eq N G hN hG hG' a b c1 hb hlen1, h2]
  · intro i hi
    rw [hval2 i hi, hval1 i hi]; ring
  · rintro ⟨i, hi, hne⟩ heq
    have := hval2 i hi
    rw [heq] at this
    omega

theorem run_twice_adds_twice_witness :
    ∃ wd c1 c2, mainWorkDiv ((5 : Nat) : Int) ((2 : Nat) : Int) = .ok wd ∧
      (∀ x, launch ((5 : Nat) : Int) ((2 : Nat) : Int) [] [0, 1, 2, 3, 4] x
        = runGrid wd [] [0, 1, 2, 3, 4] x 5) ∧
      launch ((5 : Nat) : Int) ((2 : Nat) : Int) [] [0, 1, 2, 3, 4] [7, 7, 7, 7, 7] = .ok c1 ∧
      launch ((5 : Nat) : Int) ((2 : Nat) : Int) [] [0, 1, 2, 3, 4] c1 = .ok c2 ∧
      c2.length = 5 ∧
      (∀ i, i < 5 → c2.getD i 0 = ([7, 7, 7, 7, 7] : List Int).getD i 0
        + 2 * ([0, 1, 2, 3, 4] : List Int).getD i 0) ∧
      ((∃ i, i < 5 ∧ ([0, 1, 2, 3, 4] : List Int).getD i 0 ≠ 0) → c2 ≠ c1) :=
  run_twice_adds_twice 5 2 (by decide) (by decide) (by decide) [] [0, 1, 2, 3, 4]
    [7, 7, 7, 7, 7] rfl rfl (by decide) (by decide)

/-- Claim C10. For `int` values `N >= 0` and `G > 0` and buffers `b`, `c` of length
`N`: the grid threads of the work division of `main` are `0, ..., ceil(N/G)*G - 1`;
running the kernel for them one after another in any order gives the result of
the run in grid order (the same buffer, or the same fault); two different threads
have no index in common; and the result is the same for every other group size. -/
theorem order_independence (N G : Nat) (hN : (N : Int) ≤ INT_MAX) (hG : 0 < G)
    (hG' : (G : Int) ≤ INT_MAX) (a b c : List Int) (hb : b.length = N) (hc : c.length = N) :
    ∃ wd, mainWorkDiv (N : Int) (G : Int) = .ok wd ∧
      (wd.blocksPerGrid : Int) = ⌈((N : Int) : ℚ) / ((G : Int) : ℚ)⌉ ∧
      gridThreads wd = List.range (wd.blocksPerGrid * G) ∧
      (∀ ts, ts.Perm (gridThreads wd) →
        runThreads wd ts a b c N = launch (N : Int) (G : Int) a b c) ∧
      (∀ t₁ t₂, t₁ ∈ gridThreads wd → t₂ ∈ gridThreads wd → t₁ ≠ t₂ →
        ∀ i, i ∈ threadElems t₁ wd.elementsPerThread N →
          i ∉ threadElems t₂ wd.elementsPerThread N) ∧
      (∀ G₂ : Nat, 0 < G₂ → (G₂ : Int) ≤ INT_MAX →
        launch (N : Int) (G₂ : Int) a b c = launch (N : Int) (G : Int) a b c) := by
  have hlt := main_grid_lt N G hN hG hG'
  have hge := ceilDiv_mul_ge N G hG
  have hgrid : gridThreads ⟨ceilDiv N G, G, 1⟩ = List.range (ceilDiv N G * G) :=
    gridThreads_eq_range _ (by show ceilDiv N G * G ≤ SIZE_MOD; omega)
  refine ⟨_, mainWorkDiv_ofNat N G hN hG hG', ceilDiv_eq_ceil N G hG, hgrid, ?_, ?_, ?_⟩
  · intro ts hp
    rw [hgrid] at hp
    rw [launch_eq N G hN hG hG' a b c hb hc]
    exact runThreads_perm_range _ rfl a b c N (ceilDiv N G * G) hb hc hge (by omega) ts hp
  · intro t₁ t₂ h1 h2 hne i hi1 hi2
    rw [hgrid, List.mem_range] at h1 h2
    rw [show (WorkDiv.mk (ceilDiv N G) G 1).elementsPerThread = 1 from rfl] at hi1 hi2
    rw [threadElems_one t₁ N (by omega)] at hi1
    rw [threadElems_one t₂ N (by omega)] at hi2
    split at hi1
    · split at hi2
      · rw [List.mem_singleton] at hi1 hi2
        omega
      · exact absurd hi2 (List.not_mem_nil _)
    · exact absurd hi1 (List.not_mem_nil _)
  · intro G₂ hG₂ hG₂'
    rw [launch_eq N G hN hG hG' a b c hb hc, launch_eq N G₂ hN hG₂ hG₂' a b c hb hc]

theorem order_independence_witness :
    ∃ wd, mainWorkDiv ((5 : Nat) : Int) ((2 : Nat) : Int) = .ok wd ∧
      (wd.blocksPerGrid : Int) = ⌈(((5 : Nat) : Int) : ℚ) / (((2 : Nat) : Int) : ℚ)⌉ ∧
      gridThreads wd = List.range (wd.blocksPerGrid * 2) ∧
      (∀ ts, ts.Perm (gridThreads wd) →
        runThreads wd ts [] [0, 1, 2, 3, 4] [7, 7, 7, 7, 7] 5
          = launch ((5 : Nat) : Int) ((2 : Nat) : Int) [] [0, 1, 2, 3, 4] [7, 7, 7, 7, 7]) ∧
      (∀ t₁ t₂, t₁ ∈ gridThreads wd → t₂ ∈ gridThreads wd → t₁ ≠ t₂ →
        ∀ i, i ∈ threadElems t₁ wd.elementsPerThread 5 →
          i ∉ threadElems t₂ wd.elementsPerThread 5) ∧
      (∀ G₂ : Nat, 0 < G₂ → (G₂ : Int) ≤ INT_MAX →
        launch ((5 : Nat) : Int) (G₂ : Int) [] [0, 1, 2, 3, 4] [7, 7, 7, 7, 7]
          = launch ((5 : Nat) : Int) ((2 : Nat) : Int) [] [0, 1, 2, 3, 4] [7, 7, 7, 7, 7]) :=
  order_independence 5 2 (by decide) (by decide) (by decide) [] [0, 1, 2, 3, 4]
    [7, 7, 7, 7, 7] rfl rfl

/-! ## `main` -/

theorem Run.result_bind {α β : Type} (x : Run α) (f : α → Run β) :
    (x >>= f).result = (x.result >>= fun v => (f v).result) := by
  obtain ⟨tr, r⟩ := x
  cases r <;> rfl

theorem emit_result (e : Event) : (emit e).result = .ok () := rfl

theorem silent_result {α : Type} (x : Except Fault α) : (silent x).result = x := rfl

theorem atoi_inIntRange (s : String) (v : Int) (h : atoi s = .ok v) : inIntRange v := by
  have key : ∀ x : Int, checkInt x = .ok v → inIntRange v := by
    intro x hx
    unfold checkInt at hx
    split at hx
    · injection hx with hx; rw [← hx]; assumption
    · cases hx
  unfold atoi at h
  split at h <;> exact key _ h

theorem forM_result_ok {α : Type} (f : α → Run PUnit) :
    ∀ l : List α, (∀ x ∈ l, (f x).result = .ok ⟨⟩) → (l.forM f).result = .ok ⟨⟩ := by
  intro l
  induction l with
  | nil => intro _; rfl
  | cons x l ih =>
    intro h
    show (f x >>= fun _ => l.forM f).result = _
    rw [Run.result_bind, h x (List.mem_cons_self _ _), ok_bind]
    exact ih (fun y hy => h y (List.mem_cons_of_mem _ hy))

theorem readAt_ok (l : List Int) (i : Nat) (h : i < l.length) :
    readAt l i = .ok (l.getD i 0) := by
  unfold readAt
  rw [List.getD_eq_getElem?_getD, List.getElem?_eq_getElem h]
  rfl

theorem toInt_of_lt (i : Nat) (h : i < 2147483648) : toInt i = (i : Int) := by
  unfold toInt
  omega

theorem getD_map_range (f : Nat → Int) (N i : Nat) (h : i < N) :
    ((List.range N).map f).getD i 0 = f i := by
  rw [List.getD_eq_getElem?_getD, List.getElem?_eq_getElem (by simp; exact h)]
  simp

theorem emit_bind {β : Type} (e : Event) (f : Unit → Run β) :
    (emit e >>= f) = ⟨e :: (f ()).trace, (f ()).result⟩ := rfl

theorem silent_ok_bind {α β : Type} (v : α) (f : α → Run β) :
    (silent (Except.ok v) >>= f) = f v := rfl

theorem silent_error_bind {α β : Type} (e : Fault) (f : α → Run β) :
    (silent (Except.error e : Except Fault α) >>= f) = ⟨[], .error e⟩ := rfl

theorem libCall_true : libCall true = .ok () := rfl

theorem mainWorkDiv_zero (N : Int) : mainWorkDiv N 0 = .error .divByZero := rfl

/-- Claim C8 (as amended). When the argument count is not 4, `main` writes the
usage message, does nothing else (no argument is parsed, no buffer allocated, no
kernel enqueued) and returns `-1`. When it is 4, the three arguments are read by
`atoi` as `int` values `N >= 0`, `G > 0` and some device number, every library
call succeeds (set-up, allocation and copy of `N` elements, execution of the
kernel task for the work division of `main`), and no sum of an entry of the never
initialised buffer `c_acc` with `b[i] = i` leaves `int`, then `main` returns `0`.
When it is 4, the second argument is read as `0`, the others as any `int` values,
and the set-up succeeds, then `main` does not return: after parsing, the first
line of output and the set-up it divides by zero, before any allocation. -/
theorem main_exit_status (argv : List String) (be : Backend) (uninit : Nat → Int) :
    (argv.length ≠ 4 → main argv be uninit = ⟨[.stdout usage], .ok (-1)⟩) ∧
    (argv.length = 4 → ∀ (N G : Nat) (D : Int),
      atoi (argv.getD 1 "") = .ok (N : Int) →
      atoi (argv.getD 2 "") = .ok (G : Int) →
      atoi (argv.getD 3 "") = .ok D →
      0 < G →
      be.setupOk = true → be.allocOk N = true → be.copyOk N = true →
      (∀ wd, mainWorkDiv (N : Int) (G : Int) = .ok wd → be.enqueueOk wd = true) →
      (∀ i, i < N → inIntRange (uninit i + (i : Int))) →
      (main argv be uninit).result = .ok 0) ∧
    (argv.length = 4 → ∀ (N D : Int),
      atoi (argv.getD 1 "") = .ok N →
      atoi (argv.getD 2 "") = .ok 0 →
      atoi (argv.getD 3 "") = .ok D →
      be.setupOk = true →
      main argv be uninit =
        ⟨[.parseArg 1, .parseArg 2, .parseArg 3,
            .stdout ("Adding vectors of size " ++ toString N ++ " with "
              ++ toString (0 : Int) ++ " threads"),
            .setup],
          .error .divByZero⟩) := by
  refine ⟨?_, ?_, ?_⟩
  · intro hargc
    unfold main
    simp only [ne_eq, hargc, not_false_eq_true, if_true]
    rfl
  · intro hargc N G D h1 h2 h3 hG hsetup halloc hcopy henq hfit
    have hN := (atoi_inIntRange _ _ h1).2
    have hG' := (atoi_inIntRange _ _ h2).2
    have hn := int_bound_lt_size N hN
    have hwd := mainWorkDiv_ofNat N G hN hG hG'
    have henq' := henq _ hwd
    have hlenb : ((List.range N).map toInt).length = N := by simp
    have hlenc : ((List.range N).map uninit).length = N := by simp
    have hsum : sumsFit N ((List.range N).map toInt) ((List.range N).map uninit) := by
      intro i hi
      rw [getD_map_range _ N i hi, getD_map_range _ N i hi, toInt_of_lt i (by omega)]
      exact hfit i hi
    obtain ⟨c1, hc1, hlen1, -⟩ := addInPlace_ok _ _ N hlenb hlenc hsum
    have hrun : runGrid ⟨ceilDiv N G, G, 1⟩ ((List.range N).map toInt)
        ((List.range N).map toInt) ((List.range N).map uninit) N = .ok c1 := by
      rw [← launch_eq_runGrid N G hN hG hG', launch_eq N G hN hG hG' _ _ _ hlenb hlenc, hc1]
    unfold main
    simp only [hargc, ne_eq, not_true_eq_false, if_false, Run.result_bind, emit_result,
      silent_result, ok_bind, Nat.reduceSub, h1, h2, h3, hwd,
      toSize_ofNat N (show N < SIZE_MOD by unfold SIZE_MOD; omega), Int.toNat_ofNat, hrun,
      hsetup, halloc, hcopy, henq', libCall_true]
    rw [forM_result_ok, ok_bind]
    · rfl
    · intro i hi
      rw [List.mem_range] at hi
      simp only [Run.result_bind, silent_result, emit_result,
        readAt_ok _ i (show i < ((List.range N).map toInt).length by rw [hlenb]; exact hi),
        readAt_ok c1 i (by rw [hlen1]; exact hi), ok_bind]
  · intro hargc N D h1 h2 h3 hsetup
    unfold main
    simp only [hargc, ne_eq, not_true_eq_false, if_false, Nat.reduceSub, h1, h2, h3, hsetup,
      libCall_true, mainWorkDiv_zero, silent_ok_bind, silent_error_bind]
    simp only [emit_bind]

theorem main_exit_status_witness :
    main ["vector_addition", "5", "1"] ⟨true, fun _ => true, fun _ => true, fun _ => true⟩
        (fun _ => 0) = ⟨[.stdout usage], .ok (-1)⟩ ∧
    (main ["vector_addition", "5", "1", "0"]
        ⟨true, fun _ => true, fun _ => true, fun _ => true⟩ (fun _ => 0)).result = .ok 0 ∧
    main ["vector_addition", "5", "0", "0"]
        ⟨true, fun _ => true, fun _ => true, fun _ => true⟩ (fun _ => 0) =
      ⟨[.parseArg 1, .parseArg 2, .parseArg 3,
          .stdout ("Adding vectors of size " ++ toString (5 : Int) ++ " with "
            ++ toString (0 : Int) ++ " threads"),
          .setup],
        .error .divByZero⟩ :=
  ⟨(main_exit_status ["vector_addition", "5", "1"] _ (fun _ => 0)).1 (by decide),
    (main_exit_status ["vector_addition", "5", "1", "0"] _ (fun _ => 0)).2.1 (by decide) 5 1 0
      (by decide) (by decide) (by decide) (by decide) rfl rfl rfl (fun _ _ => rfl)
      (by decide),
    (main_exit_status ["vector_addition", "5", "0", "0"] _ (fun _ => 0)).2.2 (by decide) 5 0
      (by decide) (by decide) (by decide) rfl⟩

/-- Claim C8 (as stated, fails). With exactly three positional arguments
`5 0 0`, and every library call succeeding, the program does not return `0`: it
parses the arguments, prints the first line, obtains the devices and divides by
zero in the computation of `n_blocks`. -/
theorem main_three_args_not_exit_zero :
    ["vector_addition", "5", "0", "0"].length = 4 ∧
    (main ["vector_addition", "5", "0", "0"]
      ⟨true, fun _ => true, fun _ => true, fun _ => true⟩ (fun _ => 0)).result
        = .error .divByZero ∧
    (main ["vector_addition", "5", "0", "0"]
      ⟨true, fun _ => true, fun _ => true, fun _ => true⟩ (fun _ => 0)).result ≠ .ok 0 ∧
    (main ["vector_addition", "5", "0", "0"]
      ⟨true, fun _ => true, fun _ => true, fun _ => true⟩ (fun _ => 0)).trace =
      [.parseArg 1, .parseArg 2, .parseArg 3,
        .stdout "Adding vectors of size 5 with 0 threads", .setup] := by
  decide

end VectorAddition
